import Mathlib

/-!
Shallow embedding of `src/aclman.py` (policy cascade resolver and ACL
diff-and-apply engine).  Python strings are Lean `String`s, Python ints are
`Int`, Python dicts that are only read pointwise are functions, dicts that
are iterated are association lists in insertion order.  Python exceptions
(`IndexError`, `KeyError`, `RuntimeError`) are an explicit error type
threaded through `Except`.  External OS primitives (`getfacl` output,
`pwd`/`grp` lookups, `lstat` data) are inputs to the model; the commands the
program would issue (`chmod`, `setfacl`, `os.lchown`) are an explicit
effect list.
-/

deriving instance DecidableEq for Except

namespace Aclman

/-- Python exception kinds raised by the modelled code. -/
inductive PyErr where
  | indexError : PyErr
  | keyError : PyErr
  | runtimeError : String → PyErr
deriving DecidableEq

/-! ## String primitives

Python string operations, implemented structurally over the character list
of a `String` (Python 3 strings are character sequences, so slicing,
splitting, case folding and affix tests are all by characters). -/

/-- Python `s.lower()` (ASCII container semantics suffice here). -/
def pyToLower (s : String) : String :=
  ⟨s.data.map Char.toLower⟩

/-- Python `s.startswith(pre)`. -/
def pyStartsWith (s pre : String) : Bool :=
  pre.data.isPrefixOf s.data

/-- Python `s.endswith(suf)`. -/
def pyEndsWith (s suf : String) : Bool :=
  suf.data.isSuffixOf s.data

/-- Python `s[0:n]`. -/
def pyTake (s : String) (n : Nat) : String :=
  ⟨s.data.take n⟩

/-- Python `s[n:]`. -/
def pyDrop (s : String) (n : Nat) : String :=
  ⟨s.data.drop n⟩

/-- Split a character list at every occurrence of `c`. -/
def splitChar (c : Char) : List Char → List (List Char)
  | [] => [[]]
  | ch :: t =>
    match splitChar c t with
    | [] => [[]]
    | h :: hs => if ch == c then [] :: h :: hs else (ch :: h) :: hs

/-- Python `s.split(c)` for a one-character separator. -/
def pySplit (s : String) (c : Char) : List String :=
  (splitChar c s.data).map String.mk

/-- Python `sep.join(ss)`. -/
def pyJoin (sep : String) : List String → String
  | [] => ""
  | [x] => x
  | x :: y :: xs => x ++ sep ++ pyJoin sep (y :: xs)

/-- Helper for Python `s.partition(":")`: the parts before and after the
first colon, `none` when there is no colon. -/
def breakColon : List Char → Option (List Char × List Char)
  | [] => none
  | ch :: t =>
    if ch == ':' then some ([], t)
    else match breakColon t with
      | none => none
      | some q => some (ch :: q.1, q.2)

/-! ## Permission grammar (`parseace`, aclman.py lines 254-310) -/

/-- Allowed characters for permission position 1 (`vrs = ["-", "*", "r"]`). -/
def vrs : List Char := ['-', '*', 'r']

/-- Allowed characters for permission position 2 (`vws = ["-", "*", "w"]`). -/
def vws : List Char := ['-', '*', 'w']

/-- Allowed characters for permission position 3 (`vxs = ["-", "*", "x", "X", "D"]`). -/
def vxs : List Char := ['-', '*', 'x', 'X', 'D']

/-- Allowed characters for permission position 4 (`vss = ["-", "*", "s", "S", "Z", "D"]`). -/
def vss : List Char := ['-', '*', 's', 'S', 'Z', 'D']

/-- Python `s[i]`: character indexing, raising `IndexError` when out of range. -/
def strIdx (s : String) (i : Nat) : Except PyErr Char :=
  match s.data[i]? with
  | some c => .ok c
  | none => .error .indexError

/-- Python `s.partition(":")`, with the separator itself dropped:
returns the part before the first `":"` and the part after it
(`(s, "")` when no `":"` occurs). -/
def partitionColon (s : String) : String × String :=
  match breakColon s.data with
  | some q => (⟨q.1⟩, ⟨q.2⟩)
  | none => (s, "")

/-- The `RuntimeError` message of aclman.py line 291, with the joins of
`vrs`/`vws`/`vxs` already written out. -/
def grammarMsg (lr : String) : String :=
  "Unknown keyword, expected \"(-|*|r)(-|*|w)(-|*|x|X|D)\": " ++ lr

/-- aclman.py lines 290-294: evaluate `lr[0] not in vrs or lr[1] not in vws
or lr[2] not in vxs` in Python's left-to-right short-circuit order (so a
too-short `lr` raises `IndexError` at the first missing position, while an
invalid character at an earlier position raises the grammar `RuntimeError`
first), then return `vrs.index(lr[0]) - 1` etc. -/
def checkPerm3 (lr : String) : Except PyErr (Int × Int × Int) :=
  match strIdx lr 0 with
  | .error e => .error e
  | .ok c0 =>
    if ¬ vrs.contains c0 then .error (.runtimeError (grammarMsg lr))
    else match strIdx lr 1 with
      | .error e => .error e
      | .ok c1 =>
        if ¬ vws.contains c1 then .error (.runtimeError (grammarMsg lr))
        else match strIdx lr 2 with
          | .error e => .error e
          | .ok c2 =>
            if ¬ vxs.contains c2 then .error (.runtimeError (grammarMsg lr))
            else .ok ((vrs.indexOf c0 : Int) - 1, (vws.indexOf c1 : Int) - 1,
                      (vxs.indexOf c2 : Int) - 1)

/-- One parsed ACE `[sub, r, w, x, s]` (aclman.py line 310).  Field values:
`-1` clear, `0` unspecified/no-change, `1` set, and the raw codes `2`-`4`
for the directory/file-sensitive characters before resolution. -/
structure Ace where
  sub : String
  r : Int
  w : Int
  x : Int
  s : Int
deriving DecidableEq

/-- Python list indexing `ace[i]` for the parsed ACE list `[sub, r, w, x, s]`
(only indices 1-4 are ever used by the source). -/
def Ace.get (a : Ace) : Nat → Int
  | 1 => a.r
  | 2 => a.w
  | 3 => a.x
  | 4 => a.s
  | _ => 0

/-- aclman.py `parseace(acestring, st)` (lines 255-310).  `st` is the
`os.lstat` result when parsing `getfacl` output, modelled by its `st_mode`
bits; `none` corresponds to Python `st = None` (policy-string parsing).
`S_ISUID = 2048`, `S_ISGID = 1024`, `S_ISVTX = 512`. -/
def parseace (acestring : String) (st : Option Nat) : Except PyErr Ace := do
  let (lh1, lr1) := partitionColon acestring
  let (sub1, lh2, lr2) :=
    if lh1 = "d" ∨ lh1 = "default" then
      let q := partitionColon lr1
      ("d:", q.1, q.2)
    else ("", lh1, lr1)
  let (sub2, lh3, lr3) ←
    if lh2 = "u" ∨ lh2 = "user" then
      let q := partitionColon lr2
      pure (sub1 ++ "u:", q.1, q.2)
    else if lh2 = "g" ∨ lh2 = "group" then
      let q := partitionColon lr2
      pure (sub1 ++ "g:", q.1, q.2)
    else if lh2 = "o" ∨ lh2 = "other" then
      let q := partitionColon lr2
      if q.1.length > 0 then
        throw (.runtimeError ("Other can not have a name: " ++ q.1))
      else pure (sub1 ++ "o:", q.1, q.2)
    else if lh2 = "m" ∨ lh2 = "mask" then
      let q := partitionColon lr2
      if q.1.length > 0 then
        throw (.runtimeError ("Mask can not have a name: " ++ q.1))
      else pure (sub1 ++ "m:", q.1, q.2)
    else pure (sub1 ++ "u:", lh2, lr2)
  let sub := sub2 ++ lh3
  let rwx ← checkPerm3 lr3
  let s : Int ←
    match st with
    | some mode =>
      pure (if sub = "u:" then (if mode &&& 2048 = 2048 then 1 else -1)
            else if sub = "g:" then (if mode &&& 1024 = 1024 then 1 else -1)
            else if sub = "o:" then (if mode &&& 512 = 512 then 1 else -1)
            else 0)
    | none =>
      if lr3.length > 3 then
        if ¬ (sub = "u:" ∨ sub = "g:" ∨ sub = "o:") then
          throw (.runtimeError
            ("Fourth permission only allowed for \"u:\", \"g:\", \"o:\" and not for \""
              ++ sub ++ "\""))
        else do
          let c3 ← strIdx lr3 3
          if ¬ vss.contains c3 then
            throw (.runtimeError
              ("Only \"-\", \"*\", \"s\", \"S\", \"Z\", \"D\" are allowed for fourth permission and not \""
                ++ c3.toString ++ "\""))
          else pure ((vss.indexOf c3 : Int) - 1)
      else pure 0
  pure ⟨sub, rwx.1, rwx.2.1, rwx.2.2, s⟩

/-- An ACL: Python dict from canonical key (`ace[0]`) to ACE, kept in
insertion order. -/
abbrev Acl := List Ace

/-- Python `acl[ace[0]] = ace`: replace in place when the key exists,
append otherwise. -/
def aclInsert (acl : Acl) (ace : Ace) : Acl :=
  if acl.any (fun a => a.sub == ace.sub) then
    acl.map (fun a => if a.sub == ace.sub then ace else a)
  else acl ++ [ace]

/-- Python `sub in acl` / dict membership. -/
def aclHasKey (acl : Acl) (sub : String) : Bool :=
  acl.any (fun a => a.sub == sub)

/-- Python `acl[sub]` as an `Option`. -/
def aclFind (acl : Acl) (sub : String) : Option Ace :=
  acl.find? (fun a => a.sub == sub)

/-- aclman.py `parseacl(aclstring)` (lines 330-335). -/
def parseacl (aclstring : String) : Except PyErr Acl :=
  (pySplit aclstring ',').foldlM (fun acl s => do
    let ace ← parseace s none
    pure (aclInsert acl ace)) ([] : Acl)

/-! ## Diff engine (`createchanges`, aclman.py lines 337-397) -/

/-- Python `["r", "w", "x"][i - 1]` for `i` in 1..3. -/
def letters (i : Nat) : String :=
  if i = 1 then "r" else if i = 2 then "w" else "x"

/-- aclman.py lines 371-372 (and 355-356, 385-386): `if i >= 3 and na >= 2:
na = bigvalues[i - 3][na - 2]`: resolve a directory/file-sensitive code
through the `bigvalues` lookup tables.  (For the in-range indices produced
by `parseace` the `getD` defaults are never used.) -/
def bigResolve (bv : List (List Int)) (i : Nat) (na : Int) : Int :=
  if 3 ≤ i ∧ 2 ≤ na then (bv.getD (i - 3) []).getD (na - 2).toNat 0 else na

/-- aclman.py lines 350-364: symbolic-mode mutations for an owning
user/group/other entry present in both ACLs (`[1, 2, 3, 4]` fields for
`u:`/`o:`, only field 4 for `g:` because the owning group's rwx lives in
the extended ACL). -/
def modsForSpecial (sub : String) (newace curace : Ace) (bv : List (List Int)) :
    List String :=
  let idxs : List Nat := if sub == "u:" || sub == "o:" then [1, 2, 3, 4] else [4]
  idxs.foldl (fun acc i =>
    let na := bigResolve bv i (newace.get i)
    let ca := curace.get i
    if na ≠ 0 ∧ na ≠ ca then
      let op := if na = -1 then "-" else "+"
      let m := if i = 4 then (if sub == "o:" then op ++ "t" else pyTake sub 1 ++ op ++ "s")
               else pyTake sub 1 ++ op ++ letters i
      acc ++ [m]
    else acc) []

/-- aclman.py lines 365-379: the rebuilt triad string and the changed flag
for an entry present in both ACLs that is not `u:`/`o:`. -/
def triadChanged (newace curace : Ace) (bv : List (List Int)) : String × Bool :=
  ([1, 2, 3] : List Nat).foldl (fun acc i =>
    let na := bigResolve bv i (newace.get i)
    let ca := curace.get i
    let a := if na = 0 then ca else na
    (acc.1 ++ (if a = -1 then "-" else letters i),
     acc.2 || decide (na ≠ 0 ∧ na ≠ ca))) ("", false)

/-- aclman.py lines 380-389: the triad string for an entry absent from the
current ACL. -/
def addTriad (newace : Ace) (bv : List (List Int)) : String :=
  ([1, 2, 3] : List Nat).foldl (fun acc i =>
    let na := bigResolve bv i (newace.get i)
    acc ++ (if na = -1 then "-" else letters i)) ""

/-- One iteration of the `for sub in newacl.keys()` loop of `createchanges`
(aclman.py lines 346-389), acting on the `(mods, addaces, modaces)`
accumulator. -/
def ccStep (curacl : Acl) (bv : List (List Int))
    (acc : List String × List String × List String) (newace : Ace) :
    List String × List String × List String :=
  let (mods, addaces, modaces) := acc
  match aclFind curacl newace.sub with
  | some curace =>
    let mods := if newace.sub == "u:" || newace.sub == "g:" || newace.sub == "o:"
      then mods ++ modsForSpecial newace.sub newace curace bv else mods
    let modaces := if ¬ (newace.sub == "u:" || newace.sub == "o:") then
        let tc := triadChanged newace curace bv
        if tc.2 then modaces ++ [newace.sub ++ ":" ++ tc.1] else modaces
      else modaces
    (mods, addaces, modaces)
  | none => (mods, addaces ++ [newace.sub ++ ":" ++ addTriad newace bv], modaces)

/-- aclman.py `createchanges(curacl, newacl, bigvalues, replace)` (lines
338-397): returns `(mods, addaces, modaces, rmaces)`. -/
def createchanges (curacl newacl : Acl) (bv : List (List Int)) (replace : Bool) :
    List String × List String × List String × List String :=
  let r := newacl.foldl (ccStep curacl bv) ([], [], [])
  let rmaces := if replace then
      (curacl.filter (fun c => (aclFind newacl c.sub).isNone)).map (fun c => c.sub)
    else []
  (r.1, r.2.1, r.2.2, rmaces)

/-! ## Apply engine (`execute`, `chown`, `chacl`, aclman.py lines 152-158,
225-252, 400-414) -/

/-- An externally visible apply-primitive call: a spawned command
(`chmod`/`setfacl`), or a direct `os.lchown`. -/
inductive Effect where
  | exec : List String → Effect
  | lchown : Int → Int → Effect
deriving DecidableEq

/-- aclman.py `execute` (lines 153-158): the command is logged always but
spawned only when `dry` is false. -/
def executeEff (dry : Bool) (args : List String) : List Effect :=
  if dry then [] else [.exec args]

/-- aclman.py line 405: `curacl["u:"][3]`, the current owning-user execute
value (`getfacl` output always contains a `u:` entry, so the default is
never used there). -/
def curOwnerX (curacl : Acl) : Int :=
  ((aclFind curacl "u:").map (fun a => a.x)).getD 0

/-- The `bigvalues` tables of aclman.py line 405:
`[[1, 1], [1, -1, 1]] if isdir else [[curacl["u:"][3], -1], [0, 0, -1]]`. -/
def chaclBigvalues (isdir : Bool) (ox : Int) : List (List Int) :=
  if isdir then [[1, 1], [1, -1, 1]] else [[ox, -1], [0, 0, -1]]

/-- aclman.py `chacl` (lines 400-414) as the list of commands it submits to
`execute`, in source order: `chmod`, `setfacl -x`, `setfacl -m` (modify),
`setfacl -m` (add).  `curacl` stands for the `getfacl path` result. -/
def chaclOps (isdir : Bool) (curacl newacl : Acl) (removeaces : Bool)
    (path : String) : List (List String) :=
  let bv := chaclBigvalues isdir (curOwnerX curacl)
  let ch := createchanges curacl newacl bv removeaces
  (if ch.1 ≠ [] then [["chmod", pyJoin "," ch.1, path]] else []) ++
  (if ch.2.2.2 ≠ [] then [["setfacl", "-x", pyJoin "," ch.2.2.2, path]] else []) ++
  (if ch.2.2.1 ≠ [] then [["setfacl", "-m", pyJoin "," ch.2.2.1, path]] else []) ++
  (if ch.2.1 ≠ [] then [["setfacl", "-m", pyJoin "," ch.2.1, path]] else [])

/-- `chacl`'s effects: each submitted command goes through `execute`, which
suppresses the spawn in dry mode. -/
def chaclEffects (dry isdir : Bool) (curacl newacl : Acl) (removeaces : Bool)
    (path : String) : List Effect :=
  (chaclOps isdir curacl newacl removeaces path).foldl
    (fun acc c => acc ++ executeEff dry c) []

/-- aclman.py `chown` (lines 225-252).  `uidF`/`gidF` are the
`pwd`/`grp` name lookups (`none` = Python `KeyError`, handled by falling
back to id 0 with a warning); `stUid`/`stGid` are the path's current
owner/group ids from `lstat`. -/
def chownEffects (dry : Bool) (uidF gidF : String → Option Int)
    (stUid stGid : Int) (owner group : Option String) : List Effect :=
  let uid : Int := match owner with
    | none => -1
    | some o => match uidF o with
      | some u => if u = stUid then -1 else u
      | none => 0
  let gid : Int := match group with
    | none => -1
    | some g => match gidF g with
      | some v => if v = stGid then -1 else v
      | none => 0
  if uid ≠ -1 ∨ gid ≠ -1 then (if dry then [] else [.lchown uid gid]) else []

/-! ## Policy tables (`configparser` slice used by `readconfig`) -/

/-- One INI section: its name (a path pattern) and its options in insertion
order. -/
structure CSection where
  name : String
  opts : List (String × String)
deriving DecidableEq

/-- A parsed policy table (`ConfigParser`): sections in insertion order. -/
structure Config where
  sections : List CSection
deriving DecidableEq

/-- `config.has_section(n)`. -/
def Config.hasSection (c : Config) (n : String) : Bool :=
  c.sections.any (fun s => s.name == n)

/-- The section named `n`, if any (first match). -/
def Config.findSection (c : Config) (n : String) : Option CSection :=
  c.sections.find? (fun s => s.name == n)

/-- `config.has_option(n, k)`. -/
def Config.hasOption (c : Config) (n k : String) : Bool :=
  match c.findSection n with
  | some s => s.opts.any (fun p => p.1 == k)
  | none => false

/-- `config.get(n, k)` as an `Option` (the source always guards `get` with
`has_option`). -/
def Config.getOption (c : Config) (n k : String) : Option String :=
  (c.findSection n).bind (fun s => s.opts.lookup k)

/-- `config.items(n)`: the option list of section `n`. -/
def Config.items (c : Config) (n : String) : List (String × String) :=
  match c.findSection n with
  | some s => s.opts
  | none => []

/-- `config.remove_section(n)`. -/
def Config.removeSection (c : Config) (n : String) : Config :=
  ⟨c.sections.filter (fun s => !(s.name == n))⟩

/-- `config.add_section(n)` (the source only calls it when the section is
absent). -/
def Config.addSection (c : Config) (n : String) : Config :=
  ⟨c.sections ++ [⟨n, []⟩]⟩

/-- Python dict-style option assignment inside one section. -/
def setAssoc (l : List (String × String)) (k v : String) : List (String × String) :=
  if l.any (fun p => p.1 == k) then
    l.map (fun p => if p.1 == k then (k, v) else p)
  else l ++ [(k, v)]

/-- Helper for `Config.setOpt`: update the first section named `n`. -/
def setOptList (n k v : String) : List CSection → List CSection
  | [] => []
  | s :: rest =>
    if s.name == n then ⟨s.name, setAssoc s.opts k v⟩ :: rest
    else s :: setOptList n k v rest

/-- `config.set(n, k, v)`: update the (first) section named `n`. -/
def Config.setOpt (c : Config) (n k v : String) : Config :=
  ⟨setOptList n k v c.sections⟩

/-! ## Parent-table merge (`readconfig`, aclman.py lines 437-521).
`basename` is the child directory's base name, `path` the child directory
(used in messages), `pg` the `getpgrp` primary-group lookup.  The `added`
dict is only read pointwise, so it is a function; the collected `String`
list holds the level-0 warnings the merge logs. -/

/-- aclman.py lines 461-467 (and 444-450): parse the `FINAL` option of
section `sec` of `cfg`: `1` for `true`/`yes`, `-1` for `false`/`no` or a
missing option, `RuntimeError` otherwise. -/
def parseFinal (cfg : Config) (sec : String) (path : String) : Except PyErr Int :=
  if cfg.hasOption sec "FINAL" then
    let finalvalue := pyToLower ((cfg.getOption sec "FINAL").getD "")
    if finalvalue = "true" ∨ finalvalue = "yes" then .ok 1
    else if finalvalue = "false" ∨ finalvalue = "no" then .ok (-1)
    else .error (.runtimeError ("Invalid value for FINAL '" ++ finalvalue ++ "' in " ++ path))
  else .ok (-1)

/-- aclman.py lines 442-450: the `globalfinal` flag from the parent's
"every level" section `/*`. -/
def globalFinal (pcfg : Config) (path : String) : Except PyErr Int :=
  if pcfg.hasSection "/*" then parseFinal pcfg "/*" path else .ok (-1)

/-- aclman.py lines 451-454: discard every section of the child's own table,
logging a warning per section.  The iteration is over a snapshot of the
section names, as `config.sections()` returns a fresh list. -/
def wipeAll (cfg : Config) (path : String) : Config × List String :=
  let names := cfg.sections.map (fun s => s.name)
  (names.foldl (fun c n => c.removeSection n) cfg,
   names.map (fun n => "Tried to override global final section " ++ n ++ " in " ++ path))

/-- The rewrite of one parent pattern for the child (aclman.py lines
456-497): the new key (`none` when the pattern does not propagate), its
priority `nprio`, and the `setowner`/`setgroup` markers. -/
structure Rewrite where
  nsec : Option String
  nprio : Int
  setowner : Int
  setgroup : Int
deriving DecidableEq

/-- aclman.py lines 468-497: `section[0:3] == "/*/"` etc., in source order
(Python slices are `String.take`/`String.drop`). -/
def rewriteSection (basename sec : String) : Rewrite :=
  if sec = "/*" then ⟨some "/*", -1, -1, -1⟩
  else if pyTake sec 3 = "/*/" then ⟨some (pyDrop sec 2), 0, -1, -1⟩
  else if pyTake sec 4 = "/*O/" then ⟨some (pyDrop sec 3), 0, 1, -1⟩
  else if pyTake sec 4 = "/*G/" then ⟨some (pyDrop sec 3), 0, -1, 1⟩
  else if pyTake sec 5 = "/*OG/" then ⟨some (pyDrop sec 4), 0, 1, 1⟩
  else if pyTake sec 5 = "/*OP/" then ⟨some (pyDrop sec 4), 0, 1, 2⟩
  else if pyTake sec 4 = "/*P/" then ⟨some (pyDrop sec 3), 0, -1, 2⟩
  else if pyTake sec (basename.length + 2) = "/" ++ basename ++ "/" then
    ⟨some (pyDrop sec (basename.length + 1)), 1, -1, -1⟩
  else ⟨none, -1, -1, -1⟩

/-- Copy a parent section's options into child section `n`
(aclman.py lines 513-514). -/
def Config.copyInto (c : Config) (n : String) (opts : List (String × String)) : Config :=
  opts.foldl (fun acc p => acc.setOpt n p.1 p.2) c

/-- aclman.py lines 456-521, one iteration of `for section in
parentconfig.sections()`.  Returns the updated `(config, added)` state (or
the Python exception: the `RuntimeError` of an invalid `FINAL`, or the
`KeyError` raised by `del added[nsection]` on line 502, which is reached
exactly when `nsection` is NOT in `added`), plus the level-0 warnings
logged during the iteration. -/
def mergeSec (basename path : String) (pg : String → String) (pcfg : Config)
    (cfg : Config) (added : String → Option Int) (sec : CSection) :
    Except PyErr (Config × (String → Option Int)) × List String :=
  match parseFinal pcfg sec.name path with
  | .error e => (.error e, [])
  | .ok final =>
    let rw := rewriteSection basename sec.name
    match rw.nsec with
    | none => (.ok (cfg, added), [])
    | some nsec =>
      if cfg.hasSection nsec ∧ final = 1 ∧ (added nsec).isNone then
        -- line 500-502: warning, remove_section, then `del added[nsection]`
        -- raises KeyError because `nsection not in added` just held.
        (.error .keyError,
         ["Tried to override final section " ++ nsec ++ " from section " ++ sec.name
            ++ " in " ++ path])
      else
        -- lines 503-506: replace a lower-priority inherited section
        -- (`config.remove_section` plus `del added[nsection]`).
        let st2 : Config × (String → Option Int) :=
          match added nsec with
          | some pv =>
            if pv < rw.nprio then
              (cfg.removeSection nsec, fun k => if k == nsec then none else added k)
            else (cfg, added)
          | none => (cfg, added)
        -- lines 507-508: equal-priority conflict warning (checked on the
        -- state after the possible del).
        let ws2 := if st2.2 nsec == some rw.nprio then
            ["Section conflict " ++ nsec ++ " vs " ++ sec.name ++ " in " ++ path]
          else []
        -- lines 509-521: copy the parent section in when the key is free.
        if st2.1.hasSection nsec then (.ok st2, ws2)
        else
          let cfg3 := (st2.1.addSection nsec).copyInto nsec (pcfg.items sec.name)
          let cfg4 := if rw.setowner = 1 then cfg3.setOpt nsec "OWNER" basename else cfg3
          let cfg5 := if rw.setgroup = 1 then cfg4.setOpt nsec "GROUP" basename
                      else if rw.setgroup = 2 then cfg4.setOpt nsec "GROUP" (pg basename)
                      else cfg4
          (.ok (cfg5, fun k => if k == nsec then some rw.nprio else st2.2 k), ws2)

/-- The `for section in parentconfig.sections()` loop (aclman.py lines
456-521); an exception aborts the loop but the warnings already logged are
kept. -/
def mergeLoop (basename path : String) (pg : String → String) (pcfg : Config)
    (secs : List CSection) (cfg : Config) (added : String → Option Int) :
    Except PyErr Config × List String :=
  match secs with
  | [] => (.ok cfg, [])
  | sec :: rest =>
    match mergeSec basename path pg pcfg cfg added sec with
    | (.error e, ws) => (.error e, ws)
    | (.ok st, ws) =>
      let r := mergeLoop basename path pg pcfg rest st.1 st.2
      (r.1, ws ++ r.2)

/-- aclman.py lines 440-521: merge the parent's resolved table `pcfg` into
the child's local table `cfg`. -/
def mergeParent (basename path : String) (pg : String → String)
    (pcfg cfg : Config) : Except PyErr Config × List String :=
  match globalFinal pcfg path with
  | .error e => (.error e, [])
  | .ok gf =>
    let w := if gf = 1 then wipeAll cfg path else (cfg, [])
    let r := mergeLoop basename path pg pcfg pcfg.sections w.1 (fun _ =>
      (none : Option Int))
    (r.1, w.2 ++ r.2)

/-! ## Per-path apply (`doit`, aclman.py lines 529-611; the tree recursion
of lines 613-626 and the existence/symlink checks of lines 530-538 are the
scheduler's concern and take no part in the claims). -/

/-- aclman.py lines 162-187: extensions of conventionally non-executable
file types. -/
def nonexecfileexts : List String := [
  "7z",
  "ani", "avi",
  "bat", "bik", "bin", "bmp", "bup", "bz2",
  "c", "cab", "cfg", "chm", "civ5mod", "class", "cmd", "conf", "cpp", "crt", "csr", "css", "csv", "cue",
  "dat", "db", "deb", "desc", "dll", "dmg", "doc", "docx", "ds_store", "dtd", "dvr-ms",
  "ear", "exe",
  "gif", "gz",
  "h", "hlp", "htm", "html",
  "ico", "ifo", "img", "inf", "ini", "iso",
  "jar", "java", "jpg",
  "kdbx", "key",
  "ldif", "lnk", "log",
  "m3u", "manifest", "md5", "mdf", "mds", "mkv", "mov", "mp3", "mp4", "mpeg", "mpg", "msi",
  "nfo", "nrg",
  "odg", "ods", "odt", "otg", "ots", "ott",
  "pdf", "pdx", "pem", "pit", "png", "ppt", "pptx", "properties",
  "rar", "reg", "rpm", "rtf",
  "sd7", "srt", "sub", "svg", "sxc", "sxw",
  "tar", "tgz", "tif", "torrent", "ttf", "txt",
  "url",
  "vbox-extpack", "vdf", "vob",
  "war", "wav", "wma", "wmv",
  "xls", "xlsx", "xml",
  "zip", "zoo"]

/-- `os.path.basename` for an absolute path: the part after the last "/". -/
def pyBasename (p : String) : String :=
  (pySplit p '/').getLastD ""

/-- aclman.py lines 552-559: pick the effective section.  The three `if`s
run in order and each overwrites `section`, so the precedence is: exact
`"/" + basename`, then `"/"`, then `"/*"`. -/
def selectSection (cfg : Config) (basename : String) : Option String :=
  let s : Option String := none
  let s := if cfg.hasSection "/*" then some "/*" else s
  let s := if cfg.hasSection "/" then some "/" else s
  let s := if cfg.hasSection ("/" ++ basename) then some ("/" ++ basename) else s
  s

/-- One iteration of the `for ext in nonexecfileexts` loop (aclman.py lines
606-610): when the lowercased path ends in `"." ++ ext`, set every entry's
execute field (`newacl[sub][3]`) to `-1`. -/
def forceNonExecStep (pathlc : String) (acl : Acl) (ext : String) : Acl :=
  if pyEndsWith pathlc ("." ++ ext) then
    acl.map (fun a => ⟨a.sub, a.r, a.w, -1, a.s⟩)
  else acl

/-- aclman.py lines 601-610 (the non-directory ACL adjustments): drop
default-flagged entries, then force every entry's execute field to clear
once the lowercased path ends in a dot plus a configured non-executable
extension. -/
def fileAclAdjust (path : String) (newacl : Acl) : Acl :=
  let acl1 := newacl.filter (fun a => ¬ pyStartsWith a.sub "d:")
  nonexecfileexts.foldl (forceNonExecStep (pyToLower path)) acl1

/-- Inputs of one `doit` invocation that the OS supplies: the `dry` flag,
whether the path is a directory, the (absolute) path, the resolved config
(`readconfig` result, `none` = no policy applies), the `getfacl` output for
the path, the path's current owner/group ids, and the `pwd`/`grp` name
lookups. -/
structure DoitInput where
  dry : Bool
  isdir : Bool
  path : String
  config : Option Config
  curacl : Acl
  stUid : Int
  stGid : Int
  uidF : String → Option Int
  gidF : String → Option Int

/-- aclman.py lines 544-611: the apply-primitive calls one `doit` visit
issues for its own path.  Note line 573: the `os.lchown` on a reserved
`..aclman` file is NOT guarded by `dry` (unlike `execute` and `chown`). -/
def doitApply (inp : DoitInput) : Except PyErr (List Effect) :=
  match inp.config with
  | none => .ok []
  | some cfg =>
    let basename := if inp.isdir then "." else pyBasename inp.path
    match selectSection cfg basename with
    | none => .ok []
    | some sec =>
      if cfg.hasOption sec "IGNORE" then .ok []
      else if ¬ inp.isdir ∧ pyStartsWith (pyBasename inp.path) "..aclman" then do
        let newacl ← parseacl "u::rw-,g::r--,o::r--"
        let achanges := chaclEffects inp.dry inp.isdir inp.curacl newacl true inp.path
        -- line 573: os.lchown(path, getuid("root"), getgid("root")),
        -- issued unconditionally; a failing lookup would be a KeyError.
        match inp.uidF "root", inp.gidF "root" with
        | some u, some g => .ok (achanges ++ [.lchown u g])
        | _, _ => .error .keyError
      else do
        let owner := cfg.getOption sec "OWNER"
        let group := cfg.getOption sec "GROUP"
        let ch := chownEffects inp.dry inp.uidF inp.gidF inp.stUid inp.stGid owner group
        let aclEff ←
          if cfg.hasOption sec "DIRACL" ∧ inp.isdir then do
            let aclvalue := (cfg.getOption sec "DIRACL").getD ""
            let replace := ¬ pyStartsWith aclvalue "+"
            let aclvalue := if pyStartsWith aclvalue "+" then pyDrop aclvalue 1 else aclvalue
            let newacl ← parseacl aclvalue
            pure (chaclEffects inp.dry inp.isdir inp.curacl newacl replace inp.path)
          else if cfg.hasOption sec "ACL" then do
            let aclvalue := (cfg.getOption sec "ACL").getD ""
            let replace := ¬ pyStartsWith aclvalue "+"
            let aclvalue := if pyStartsWith aclvalue "+" then pyDrop aclvalue 1 else aclvalue
            let newacl ← parseacl aclvalue
            let newacl := if inp.isdir then newacl else fileAclAdjust inp.path newacl
            pure (chaclEffects inp.dry inp.isdir inp.curacl newacl replace inp.path)
          else pure []
        .ok (ch ++ aclEff)

/-! ## Predicates used by the statements -/

/-- Every field of the ACE is "unspecified" (`0`). -/
def aceAllUnspec (a : Ace) : Bool :=
  a.r == 0 && a.w == 0 && a.x == 0 && a.s == 0

/-- Every character present among the first three positions of the code part
is valid for its position (per the `vrs`/`vws`/`vxs` tables). -/
def codeValid3 (lr : String) : Bool :=
  match lr.data with
  | [] => true
  | [c0] => vrs.contains c0
  | [c0, c1] => vrs.contains c0 && vws.contains c1
  | c0 :: c1 :: c2 :: _ => vrs.contains c0 && vws.contains c1 && vxs.contains c2

/-- The option list that copying a parent section into a fresh child section
produces (fold of dict-style assignment over the parent's options). -/
def copyOpts (opts : List (String × String)) : List (String × String) :=
  opts.foldl (fun acc p => setAssoc acc p.1 p.2) []

/-! ## Helper lemmas -/

theorem lookup_some_any {l : List (String × String)} {k v : String}
    (h : l.lookup k = some v) : l.any (fun p => p.1 == k) = true := by
  induction l with
  | nil => simp [List.lookup] at h
  | cons p t ih =>
    rcases hp : (k == p.1) with _ | _
    · simp only [List.lookup, hp] at h
      simpa using Or.inr (ih h)
    · simp only [beq_iff_eq] at hp
      simp [hp]

theorem lookup_none_any {l : List (String × String)} {k : String}
    (h : l.lookup k = none) : l.any (fun p => p.1 == k) = false := by
  induction l with
  | nil => simp
  | cons p t ih =>
    rcases hp : (k == p.1) with _ | _
    · simp only [List.lookup, hp] at h
      have h2 : (p.1 == k) = false := by
        rcases hq : (p.1 == k) with _ | _
        · rfl
        · simp only [beq_iff_eq] at hq
          subst hq
          simp at hp
      simp [List.any_cons, ih h, h2]
    · simp [List.lookup, hp] at h

theorem aclHasKey_find {acl : Acl} {sub : String} (h : aclHasKey acl sub = true) :
    ∃ cur, aclFind acl sub = some cur := by
  induction acl with
  | nil => simp [aclHasKey] at h
  | cons a t ih =>
    rcases ha : (a.sub == sub) with _ | _
    · simp only [aclHasKey, List.any_cons, ha, Bool.false_or] at h
      obtain ⟨cur, hc⟩ := ih h
      exact ⟨cur, by simp [aclFind, List.find?, ha]; simpa [aclFind] using hc⟩
    · exact ⟨a, by simp [aclFind, List.find?, ha]⟩

theorem aclNoKey_find {acl : Acl} {sub : String} (h : aclHasKey acl sub = false) :
    aclFind acl sub = none := by
  apply List.find?_eq_none.mpr
  intro a ha
  simp only [aclHasKey] at h
  have := List.any_eq_false.mp h a ha
  simpa using this

theorem forceNonExec_preserve (plc : String) (exts : List String) (acl : Acl)
    (h : ∀ a ∈ acl, a.x = -1) :
    ∀ a ∈ exts.foldl (forceNonExecStep plc) acl, a.x = -1 := by
  induction exts generalizing acl with
  | nil => simpa using h
  | cons e es ih =>
    intro a ha
    simp only [List.foldl_cons] at ha
    refine ih (forceNonExecStep plc acl e) ?_ a ha
    intro b hb
    unfold forceNonExecStep at hb
    split at hb
    · obtain ⟨c, _, hcb⟩ := List.mem_map.mp hb
      rw [← hcb]
    · exact h b hb

theorem forceNonExec_clears (plc ext : String)
    (h2 : pyEndsWith plc ("." ++ ext) = true) :
    ∀ (exts : List String) (acl : Acl), ext ∈ exts →
      ∀ a ∈ exts.foldl (forceNonExecStep plc) acl, a.x = -1 := by
  intro exts
  induction exts with
  | nil => intro acl h1; simp at h1
  | cons e es ih =>
    intro acl h1 a ha
    simp only [List.foldl_cons] at ha
    rcases he : pyEndsWith plc ("." ++ e) with _ | _
    · have h1' : ext ∈ es := by
        rcases List.mem_cons.mp h1 with hq | hm
        · subst hq; rw [he] at h2; cases h2
        · exact hm
      have hid : forceNonExecStep plc acl e = acl := by
        simp [forceNonExecStep, he]
      rw [hid] at ha
      exact ih acl h1' a ha
    · have hall : ∀ b ∈ forceNonExecStep plc acl e, b.x = -1 := by
        intro b hb
        simp only [forceNonExecStep, he, if_true] at hb
        obtain ⟨c, _, hcb⟩ := List.mem_map.mp hb
        rw [← hcb]
      exact forceNonExec_preserve plc es _ hall a ha

/-- Claim C8: for a non-directory path whose lowercased name ends with a dot
followed by a configured non-executable extension, the ACL-directive
adjustment (`doit`, aclman.py lines 601-610, modelled by `fileAclAdjust`,
which is exactly what `doitApply` diffs against for non-directories) forces
the execute field of every remaining ACE to clear (`-1`), whatever the
policy said. -/
theorem c8_nonexec_clear :
    ∀ (path : String) (acl : Acl) (ext : String),
      ext ∈ nonexecfileexts →
      pyEndsWith (pyToLower path) ("." ++ ext) = true →
      (fileAclAdjust path acl).all (fun a => a.x == -1) = true := by
  intro path acl ext h1 h2
  apply List.all_eq_true.mpr
  intro a ha
  have hx := forceNonExec_clears (pyToLower path) ext h2 nonexecfileexts
    (acl.filter (fun b => ¬ pyStartsWith b.sub "d:")) h1 a
    (by simpa [fileAclAdjust] using ha)
  simpa using hx

theorem c8_nonexec_clear_witness :
    ("docx" ∈ nonexecfileexts ∧
      pyEndsWith (pyToLower "/org/report.docx") (("." : String) ++ "docx") = true) ∧
    (fileAclAdjust "/org/report.docx"
        [⟨"u:", 1, 1, 2, 0⟩, ⟨"g:", 1, -1, 2, 0⟩, ⟨"d:u:", 1, 1, 1, 0⟩]).all
      (fun a => a.x == -1) = true :=
  ⟨⟨by decide, by decide⟩,
   c8_nonexec_clear "/org/report.docx"
     [⟨"u:", 1, 1, 2, 0⟩, ⟨"g:", 1, -1, 2, 0⟩, ⟨"d:u:", 1, 1, 1, 0⟩]
     "docx" (by decide) (by decide)⟩

/-- Claim C4: the `bigvalues` tables of `chacl` (aclman.py line 405) resolve
the directory/file-sensitive codes as follows.  Execute code `X` (raw value
2): set (`1`) on directories, the current owning-user execute value on
files; execute code `D` (raw 3): set on directories, clear (`-1`) on files.
Fourth-field code `S` (raw 2): set on directories, no-change (`0`) on
files; `Z` (raw 3): clear on directories, no-change on files; `D` (raw 4):
set on directories, clear on files.  Finally, for the owning-user entry of
a file, code `X` resolves to the owner's own current execute value, so no
mode mutation is emitted (leave unchanged). -/
theorem c4_sensitive_codes :
    (∀ ox : Int, bigResolve (chaclBigvalues true ox) 3 2 = 1) ∧
    (∀ ox : Int, bigResolve (chaclBigvalues false ox) 3 2 = ox) ∧
    (∀ ox : Int, bigResolve (chaclBigvalues true ox) 3 3 = 1) ∧
    (∀ ox : Int, bigResolve (chaclBigvalues false ox) 3 3 = -1) ∧
    (∀ ox : Int, bigResolve (chaclBigvalues true ox) 4 2 = 1) ∧
    (∀ ox : Int, bigResolve (chaclBigvalues false ox) 4 2 = 0) ∧
    (∀ ox : Int, bigResolve (chaclBigvalues true ox) 4 3 = -1) ∧
    (∀ ox : Int, bigResolve (chaclBigvalues false ox) 4 3 = 0) ∧
    (∀ ox : Int, bigResolve (chaclBigvalues true ox) 4 4 = 1) ∧
    (∀ ox : Int, bigResolve (chaclBigvalues false ox) 4 4 = -1) ∧
    (∀ curace : Ace,
      modsForSpecial "u:" ⟨"u:", 0, 0, 2, 0⟩ curace (chaclBigvalues false curace.x) = []) := by
  refine ⟨?_, ?_, ?_, ?_, ?_, ?_, ?_, ?_, ?_, ?_, ?_⟩ <;>
    intro v <;>
    simp [bigResolve, chaclBigvalues, modsForSpecial, Ace.get, letters]

/-- Claim C1 (code bug): with simulation (`dry`) mode enabled, visiting a
reserved `..aclman` policy file still issues the ownership change of
aclman.py line 573 — `os.lchown(path, getuid("root"), getgid("root"))` is
not guarded by `dry`, unlike every `execute`-routed command and `chown`.
The effect list of the visit in dry mode is exactly `[lchown 0 0]` instead
of the empty list the spec requires. -/
theorem c1_dry_reserved_lchown :
    doitApply ⟨true, false, "/org/..aclman", some ⟨[⟨"/*", []⟩]⟩,
      [⟨"u:", 1, 1, -1, -1⟩, ⟨"g:", 1, -1, -1, -1⟩, ⟨"o:", 1, -1, -1, -1⟩], 0, 0,
      (fun n => if n == "root" then some 0 else none),
      (fun n => if n == "root" then some 0 else none)⟩
      = .ok [.lchown 0 0] := by decide

/-- Claim C2 counterexample: when sections `/*` and `/` are both defined and
no exact base-name section exists, `doit` (aclman.py lines 552-559) uses
`/`, not `/*` as the claim states: the `/`-check runs after the `/*`-check
and overwrites it. -/
theorem c2_counterexample :
    selectSection ⟨[⟨"/*", []⟩, ⟨"/", []⟩]⟩ "foo" = some "/" ∧
    ¬ selectSection ⟨[⟨"/*", []⟩, ⟨"/", []⟩]⟩ "foo" = some "/*" := by decide

/-- Claim C2 (amended): the effective section is selected with precedence
exact base-name key, then `/`, then `/*` (for directories the base name is
`.`, so the exact key is `/.`); when no section is found there is no action
and no error, and when the chosen section has IGNORE set there is no
action. -/
theorem c2_fallback_order :
    (∀ (cfg : Config) (basename : String),
      (cfg.hasSection ("/" ++ basename) = true →
        selectSection cfg basename = some ("/" ++ basename)) ∧
      (cfg.hasSection ("/" ++ basename) = false → cfg.hasSection "/" = true →
        selectSection cfg basename = some "/") ∧
      (cfg.hasSection ("/" ++ basename) = false → cfg.hasSection "/" = false →
        cfg.hasSection "/*" = true → selectSection cfg basename = some "/*") ∧
      (cfg.hasSection ("/" ++ basename) = false → cfg.hasSection "/" = false →
        cfg.hasSection "/*" = false → selectSection cfg basename = none)) ∧
    (∀ (inp : DoitInput) (cfg : Config), inp.config = some cfg →
      selectSection cfg (if inp.isdir then "." else pyBasename inp.path) = none →
      doitApply inp = .ok []) ∧
    (∀ (inp : DoitInput) (cfg : Config) (sec : String), inp.config = some cfg →
      selectSection cfg (if inp.isdir then "." else pyBasename inp.path) = some sec →
      cfg.hasOption sec "IGNORE" = true → doitApply inp = .ok []) := by
  refine ⟨?_, ?_, ?_⟩
  · intro cfg basename
    refine ⟨?_, ?_, ?_, ?_⟩
    · intro h1; simp [selectSection, h1]
    · intro h1 h2; simp [selectSection, h1, h2]
    · intro h1 h2 h3; simp [selectSection, h1, h2, h3]
    · intro h1 h2 h3; simp [selectSection, h1, h2, h3]
  · intro inp cfg hc hsel
    simp [doitApply, hc, hsel]
  · intro inp cfg sec hc hsel hign
    simp [doitApply, hc, hsel, hign]

theorem c2_fallback_order_witness :
    Config.hasSection ⟨[⟨"/x", []⟩]⟩ ("/" ++ "x") = true ∧
    selectSection ⟨[⟨"/x", []⟩]⟩ "x" = some ("/" ++ "x") :=
  ⟨by decide, (c2_fallback_order.1 ⟨[⟨"/x", []⟩]⟩ "x").1 (by decide)⟩

/-- Claim C9 counterexample: for the ACE string `"u::z"` the code part `"z"`
is shorter than three characters, yet `parseace` raises the grammar
`RuntimeError`, not `IndexError`: the membership test on `lr[0]`
short-circuits before `lr[1]` is ever indexed. -/
theorem c9_counterexample :
    parseace "u::z" none =
      .error (.runtimeError "Unknown keyword, expected \"(-|*|r)(-|*|w)(-|*|x|X|D)\": z") ∧
    ¬ parseace "u::z" none = .error .indexError := by decide

/-- Claim C9 (amended): for an ACE whose permission-code part is shorter
than three characters, parsing raises the unguarded `IndexError` provided
every character present among the first three positions is valid for its
position (e.g. `"u::rw"`, `"o::"`); when an earlier position holds an
invalid character the grammar `RuntimeError` fires first (see the
counterexample). -/
theorem c9_short_code_indexerror :
    (∀ lr : String, lr.length < 3 → codeValid3 lr = true →
      checkPerm3 lr = .error .indexError) ∧
    parseace "u::rw" none = .error .indexError ∧
    parseace "o::" none = .error .indexError := by
  refine ⟨?_, by decide, by decide⟩
  intro lr hlen hval
  obtain ⟨l⟩ := lr
  have hl : l.length < 3 := by simpa [String.length] using hlen
  rcases l with _ | ⟨a, _ | ⟨b, _ | ⟨c, t⟩⟩⟩
  · simp [checkPerm3, strIdx]
  · simp [codeValid3] at hval
    simp [checkPerm3, strIdx, hval]
  · simp [codeValid3] at hval
    obtain ⟨hva, hvb⟩ := hval
    simp [checkPerm3, strIdx, hva, hvb]
  · exfalso
    simp at hl
    omega

theorem c9_short_code_indexerror_witness :
    (("rw" : String).length < 3 ∧ codeValid3 "rw" = true) ∧
    checkPerm3 "rw" = .error .indexError :=
  ⟨⟨by decide, by decide⟩, c9_short_code_indexerror.1 "rw" (by decide) (by decide)⟩

/-- Claim C5 counterexample: a desired ACL whose every field is unspecified
can still produce operations — an entry (here `u:bob`) absent from the
closed current ACL is emitted as an add-entry operation `u:bob:rwx`
(aclman.py lines 380-389), so `diff(C, D)` is not always empty. -/
theorem c5_counterexample :
    createchanges [⟨"u:", 1, 1, 1, -1⟩, ⟨"g:", 1, -1, -1, -1⟩, ⟨"o:", 1, -1, -1, -1⟩]
      [⟨"u:bob", 0, 0, 0, 0⟩] (chaclBigvalues false 1) false
      = ([], ["u:bob:rwx"], [], []) ∧
    ([⟨"u:bob", 0, 0, 0, 0⟩] : Acl).all aceAllUnspec = true := by decide

theorem modsForSpecial_unspec (sub : String) (d cur : Ace) (bv : List (List Int))
    (h : aceAllUnspec d = true) : modsForSpecial sub d cur bv = [] := by
  simp only [aceAllUnspec, Bool.and_eq_true, beq_iff_eq] at h
  obtain ⟨⟨⟨h1, h2⟩, h3⟩, h4⟩ := h
  rcases hs : (sub == "u:" || sub == "o:") with _ | _ <;>
    simp [modsForSpecial, hs, bigResolve, Ace.get, h1, h2, h3, h4]

theorem triadChanged_unspec (d cur : Ace) (bv : List (List Int))
    (h : aceAllUnspec d = true) : (triadChanged d cur bv).2 = false := by
  simp only [aceAllUnspec, Bool.and_eq_true, beq_iff_eq] at h
  obtain ⟨⟨⟨h1, h2⟩, h3⟩, h4⟩ := h
  simp [triadChanged, bigResolve, Ace.get, h1, h2, h3]

theorem ccStep_noop (curacl : Acl) (bv : List (List Int)) (d : Ace)
    (h1 : aceAllUnspec d = true) (h2 : aclHasKey curacl d.sub = true) :
    ccStep curacl bv ([], [], []) d = ([], [], []) := by
  obtain ⟨cur, hfind⟩ := aclHasKey_find h2
  simp [ccStep, hfind, modsForSpecial_unspec _ _ _ _ h1, triadChanged_unspec _ _ _ h1]

theorem ccFold_noop (curacl : Acl) (bv : List (List Int)) :
    ∀ newacl : Acl,
      newacl.all aceAllUnspec = true →
      newacl.all (fun d => aclHasKey curacl d.sub) = true →
      newacl.foldl (ccStep curacl bv) ([], [], []) = ([], [], []) := by
  intro newacl
  induction newacl with
  | nil => intro _ _; rfl
  | cons d ds ih =>
    intro hU hK
    simp only [List.all_cons, Bool.and_eq_true] at hU hK
    simp only [List.foldl_cons]
    rw [ccStep_noop curacl bv d hU.1 hK.1]
    exact ih hU.2 hK.2

/-- Claim C5 (amended): the diff of a desired ACL whose every field is
unspecified against the current ACL produces zero operations provided every
desired key is present in the current ACL (otherwise an add-entry operation
is emitted) and, in replace mode, every current key is present in the
desired ACL (otherwise remove-entry operations are emitted).  No closedness
of the current ACL is needed. -/
theorem c5_noop_policy :
    ∀ (curacl newacl : Acl) (bv : List (List Int)) (replace : Bool),
      newacl.all aceAllUnspec = true →
      newacl.all (fun d => aclHasKey curacl d.sub) = true →
      (replace = true → curacl.all (fun c => aclHasKey newacl c.sub) = true) →
      createchanges curacl newacl bv replace = ([], [], [], []) := by
  intro curacl newacl bv replace hU hK hR
  unfold createchanges
  rw [ccFold_noop curacl bv newacl hU hK]
  rcases replace with _ | _
  · simp
  · have hall := hR rfl
    have hfil : curacl.filter (fun c => (aclFind newacl c.sub).isNone) = [] := by
      apply List.filter_eq_nil_iff.mpr
      intro c hc
      obtain ⟨cur, hfind⟩ := aclHasKey_find (List.all_eq_true.mp hall c hc)
      simp [hfind]
    simp [hfil]

theorem c5_noop_policy_witness :
    (([⟨"u:", 0, 0, 0, 0⟩] : Acl).all aceAllUnspec = true ∧
      ([⟨"u:", 0, 0, 0, 0⟩] : Acl).all
        (fun d => aclHasKey [⟨"u:", 1, 1, -1, -1⟩] d.sub) = true ∧
      ([⟨"u:", 1, 1, -1, -1⟩] : Acl).all
        (fun c => aclHasKey [⟨"u:", 0, 0, 0, 0⟩] c.sub) = true) ∧
    createchanges [⟨"u:", 1, 1, -1, -1⟩] [⟨"u:", 0, 0, 0, 0⟩]
      (chaclBigvalues true 0) true = ([], [], [], []) :=
  ⟨⟨by decide, by decide, by decide⟩,
   c5_noop_policy [⟨"u:", 1, 1, -1, -1⟩] [⟨"u:", 0, 0, 0, 0⟩]
     (chaclBigvalues true 0) true (by decide) (by decide) (fun _ => by decide)⟩

/-- Claim C10: in replace mode `createchanges` emits a remove-entry
operation for every canonical key present in the current ACL but absent
from the desired one, with no restriction on the entry kind — an owning
user/group/other base entry is removed like a named one, and `chacl`
passes the removals to `setfacl -x` (shown concretely for the owning-group
base entry `g:`). -/
theorem c10_replace_removes :
    (∀ (curacl newacl : Acl) (bv : List (List Int)) (sub : String),
      aclHasKey curacl sub = true → aclHasKey newacl sub = false →
      sub ∈ (createchanges curacl newacl bv true).2.2.2) ∧
    chaclOps true [⟨"u:", 1, 1, 1, -1⟩, ⟨"g:", 1, -1, 1, -1⟩, ⟨"o:", 1, -1, -1, -1⟩]
        [⟨"u:", 1, 1, 1, -1⟩, ⟨"o:", 1, -1, -1, -1⟩] true "/p"
      = [["setfacl", "-x", "g:", "/p"]] := by
  constructor
  · intro curacl newacl bv sub h1 h2
    have hfind := aclNoKey_find h2
    simp only [aclHasKey, List.any_eq_true] at h1
    obtain ⟨a, ha, hsub⟩ := h1
    simp only [beq_iff_eq] at hsub
    simp only [createchanges]
    refine List.mem_map.mpr ⟨a, List.mem_filter.mpr ⟨ha, ?_⟩, hsub⟩
    simp [hsub, hfind]
  · decide

theorem c10_replace_removes_witness :
    (aclHasKey [⟨"g:", 1, -1, 1, -1⟩] "g:" = true ∧
      aclHasKey ([] : Acl) "g:" = false) ∧
    "g:" ∈ (createchanges [⟨"g:", 1, -1, 1, -1⟩] [] (chaclBigvalues true 0) true).2.2.2 :=
  ⟨⟨by decide, by decide⟩,
   c10_replace_removes.1 [⟨"g:", 1, -1, 1, -1⟩] [] (chaclBigvalues true 0) "g:"
     (by decide) (by decide)⟩

theorem foldl_remove_names :
    ∀ (names : List String) (l : List CSection),
      (∀ s ∈ l, s.name ∈ names) →
      names.foldl (fun (c : Config) n => c.removeSection n) ⟨l⟩ = ⟨[]⟩ := by
  intro names
  induction names with
  | nil =>
    intro l h
    rcases l with _ | ⟨s, t⟩
    · rfl
    · exact absurd (h s (by simp)) (by simp)
  | cons n ns ih =>
    intro l h
    simp only [List.foldl_cons]
    show ns.foldl (fun (c : Config) n => c.removeSection n)
      ⟨l.filter (fun s => !(s.name == n))⟩ = ⟨[]⟩
    apply ih
    intro s hs
    have hsl := List.mem_filter.mp hs
    rcases List.mem_cons.mp (h s hsl.1) with he | hm
    · exfalso
      have := hsl.2
      simp [he] at this
    · exact hm

theorem wipeAll_fst (cfg : Config) (path : String) : (wipeAll cfg path).1 = ⟨[]⟩ := by
  rcases cfg with ⟨l⟩
  exact foldl_remove_names (l.map (fun s => s.name)) l
    (fun s hs => List.mem_map_of_mem _ hs)

/-- Claim C6: when the parent's "every level" pattern `/*` carries
`FINAL = true`/`yes`, ALL of the child's locally defined sections are
discarded before the parent's patterns are rewritten and merged: the merge
result equals the merge into an empty child table, and the logged warnings
are exactly one per discarded child section followed by the warnings of
that empty-child merge. -/
theorem c6_global_final_wipe :
    ∀ (basename path : String) (pg : String → String) (pcfg cfg : Config),
      globalFinal pcfg path = .ok 1 →
      mergeParent basename path pg pcfg cfg =
        ((mergeParent basename path pg pcfg ⟨[]⟩).1,
         (wipeAll cfg path).2 ++ (mergeParent basename path pg pcfg ⟨[]⟩).2) := by
  intro b p pg pcfg cfg h
  have hw := wipeAll_fst cfg p
  have h0 : wipeAll (⟨[]⟩ : Config) p = (⟨[]⟩, []) := rfl
  simp only [mergeParent, h, if_pos, h0, hw]
  simp

theorem c6_global_final_wipe_witness :
    globalFinal ⟨[⟨"/*", [("FINAL", "true")]⟩]⟩ "/p" = .ok 1 ∧
    mergeParent "c" "/p" (fun _ => "g") ⟨[⟨"/*", [("FINAL", "true")]⟩]⟩
        ⟨[⟨"/a", [("X", "1")]⟩]⟩ =
      ((mergeParent "c" "/p" (fun _ => "g") ⟨[⟨"/*", [("FINAL", "true")]⟩]⟩ ⟨[]⟩).1,
       (wipeAll ⟨[⟨"/a", [("X", "1")]⟩]⟩ "/p").2 ++
         (mergeParent "c" "/p" (fun _ => "g") ⟨[⟨"/*", [("FINAL", "true")]⟩]⟩ ⟨[]⟩).2) :=
  ⟨by decide,
   c6_global_final_wipe "c" "/p" (fun _ => "g") ⟨[⟨"/*", [("FINAL", "true")]⟩]⟩
     ⟨[⟨"/a", [("X", "1")]⟩]⟩ (by decide)⟩

/-- Claim C3 counterexample: when a FINAL-marked parent pattern (`/*/foo`,
`FINAL = true`) rewrites to a key (`/foo`) that the child defines locally,
the merge does NOT drop the inherited pattern and keep the child's — it
removes the child's local section (with the warning "Tried to override
final section ...") and then crashes with a `KeyError`, because line 502
(`del added[nsection]`) runs under the guard `not nsection in added`.  No
merged table in which the child's pattern remains effective is produced. -/
theorem c3_counterexample :
    mergeParent "child" "/p" (fun _ => "grp")
        ⟨[⟨"/*/foo", [("FINAL", "true"), ("ACL", "u::rwx")]⟩]⟩
        ⟨[⟨"/foo", [("ACL", "u::r--")]⟩]⟩ =
      (.error .keyError,
       ["Tried to override final section /foo from section /*/foo in /p"]) := by
  decide

/-- Claim C3 (amended): during the merge, when a FINAL-marked parent pattern
rewrites to a key at which the child locally defines a section (a key that
was not inherited earlier in the loop), the override warning is logged, the
child's local section is removed, and the merge then aborts with a
`KeyError` (aclman.py line 502 deletes the key from the `added` map in the
very branch that established the key is not there).  Neither pattern
survives: the merge produces an error, not a table. -/
theorem c3_final_override_keyerror :
    ∀ (pOpts cOpts : List (String × String)) (pg : String → String),
      pOpts.lookup "FINAL" = some "true" →
      mergeParent "child" "/p" pg ⟨[⟨"/*/foo", pOpts⟩]⟩ ⟨[⟨"/foo", cOpts⟩]⟩ =
        (.error .keyError,
         ["Tried to override final section /foo from section /*/foo in /p"]) := by
  intro pOpts cOpts pg h
  have hAny : pOpts.any (fun q => q.1 == "FINAL") = true := lookup_some_any h
  have hgf : globalFinal ⟨[⟨"/*/foo", pOpts⟩]⟩ "/p" = .ok (-1) := by
    simp [globalFinal, Config.hasSection]
  have hpf : parseFinal ⟨[⟨"/*/foo", pOpts⟩]⟩ "/*/foo" "/p" = .ok 1 := by
    simp [parseFinal, Config.hasOption, Config.getOption, Config.findSection,
      hAny, h, pyToLower]
  have hrw : rewriteSection "child" "/*/foo" = ⟨some "/foo", 0, -1, -1⟩ := by decide
  simp [mergeParent, hgf, mergeLoop, mergeSec, hpf, hrw, Config.hasSection]

theorem c3_final_override_keyerror_witness :
    ([("FINAL", "true")] : List (String × String)).lookup "FINAL" = some "true" ∧
    mergeParent "child" "/p" (fun _ => "x") ⟨[⟨"/*/foo", [("FINAL", "true")]⟩]⟩
        ⟨[⟨"/foo", []⟩]⟩ =
      (.error .keyError,
       ["Tried to override final section /foo from section /*/foo in /p"]) :=
  ⟨by decide,
   c3_final_override_keyerror [("FINAL", "true")] [] (fun _ => "x") (by decide)⟩

theorem beq_false_of_ne {k n : String} (h : k ≠ n) : (k == n) = false := by
  rcases hq : (k == n) with _ | _
  · rfl
  · simp only [beq_iff_eq] at hq
    exact absurd hq h

theorem findSection_removeSection_ne {c : Config} {k n : String} (h : k ≠ n) :
    (c.removeSection n).findSection k = c.findSection k := by
  rcases c with ⟨l⟩
  show (l.filter (fun s => !(s.name == n))).find? (fun s => s.name == k) =
    l.find? (fun s => s.name == k)
  induction l with
  | nil => rfl
  | cons s t ih =>
    rcases hn : (s.name == n) with _ | _
    · rcases hk : (s.name == k) with _ | _
      · simp [List.filter_cons, hn, List.find?, hk, ih]
      · simp [List.filter_cons, hn, List.find?, hk]
    · have hk : (s.name == k) = false := by
        simp only [beq_iff_eq] at hn
        rw [hn]
        exact beq_false_of_ne (fun he => h he.symm)
      simp [List.filter_cons, hn, List.find?, hk, ih]

theorem findSection_addSection {c : Config} {k n : String} {s : CSection}
    (h : c.findSection k = some s) : (c.addSection n).findSection k = some s := by
  rcases c with ⟨l⟩
  show (l ++ [(⟨n, []⟩ : CSection)]).find? (fun q => q.name == k) = some s
  induction l with
  | nil => simp [Config.findSection, List.find?] at h
  | cons a t ih =>
    rcases hp : (a.name == k) with _ | _
    · simp only [Config.findSection, List.find?, hp] at h
      simpa [List.find?, hp] using ih h
    · simp only [Config.findSection, List.find?, hp] at h
      simpa [List.find?, hp] using h

theorem findSection_setOpt_ne {c : Config} {k n a v : String} (h : k ≠ n) :
    (c.setOpt n a v).findSection k = c.findSection k := by
  rcases c with ⟨l⟩
  show (setOptList n a v l).find? (fun s => s.name == k) =
    l.find? (fun s => s.name == k)
  induction l with
  | nil => rfl
  | cons s t ih =>
    rcases hn : (s.name == n) with _ | _
    · rcases hk : (s.name == k) with _ | _
      · simp [setOptList, hn, List.find?, hk, ih]
      · simp [setOptList, hn, List.find?, hk]
    · have hk : (s.name == k) = false := by
        simp only [beq_iff_eq] at hn
        rw [hn]
        exact beq_false_of_ne (fun he => h he.symm)
      simp [setOptList, hn, List.find?, hk]

theorem findSection_copyInto_ne {k n : String} (h : k ≠ n) :
    ∀ (opts : List (String × String)) (c : Config),
      (c.copyInto n opts).findSection k = c.findSection k := by
  intro opts
  induction opts with
  | nil => intro c; rfl
  | cons q qs ih =>
    intro c
    show (Config.copyInto (c.setOpt n q.1 q.2) n qs).findSection k = _
    rw [ih (c.setOpt n q.1 q.2), findSection_setOpt_ne h]

theorem hasSection_of_findSection {c : Config} {k : String} {s : CSection}
    (h : c.findSection k = some s) : c.hasSection k = true := by
  rcases c with ⟨l⟩
  have h2 : l.find? (fun q => q.name == k) = some s := h
  clear h
  show l.any (fun q => q.name == k) = true
  induction l with
  | nil => cases h2
  | cons a t ih =>
    rcases hp : (a.name == k) with _ | _
    · simp only [List.find?, hp] at h2
      simp [List.any_cons, ih h2]
    · simp [List.any_cons, hp]

theorem find_preserved_og {c : Config} {k nsec : String} {s : CSection}
    (hkne : k ≠ nsec) (hf : c.findSection k = some s) (so sg : Int) (bn gn : String) :
    (if sg = 1 then (if so = 1 then c.setOpt nsec "OWNER" bn else c).setOpt nsec "GROUP" bn
     else if sg = 2 then (if so = 1 then c.setOpt nsec "OWNER" bn else c).setOpt nsec "GROUP" gn
     else (if so = 1 then c.setOpt nsec "OWNER" bn else c)).findSection k = some s := by
  have h4 : (if so = 1 then c.setOpt nsec "OWNER" bn else c).findSection k = some s := by
    by_cases hso : so = 1
    · rw [if_pos hso, findSection_setOpt_ne hkne]
      exact hf
    · rw [if_neg hso]
      exact hf
  by_cases hsg : sg = 1
  · rw [if_pos hsg, findSection_setOpt_ne hkne]
    exact h4
  · rw [if_neg hsg]
    by_cases hsg2 : sg = 2
    · rw [if_pos hsg2, findSection_setOpt_ne hkne]
      exact h4
    · rw [if_neg hsg2]
      exact h4

theorem mergeSec_ok_preserved
    {b p : String} {pg : String → String} {pcfg : Config}
    {cfg : Config} {added : String → Option Int} {sec : CSection}
    {k : String} {s : CSection}
    (hf : cfg.findSection k = some s) (ha : added k = none) :
    ∀ st ws, mergeSec b p pg pcfg cfg added sec = (.ok st, ws) →
      st.1.findSection k = some s ∧ st.2 k = none := by
  intro st ws h
  rcases hpf : parseFinal pcfg sec.name p with e | final
  · simp [mergeSec, hpf] at h
  rcases hns : (rewriteSection b sec.name).nsec with _ | nsec
  · simp only [mergeSec, hpf, hns, Prod.mk.injEq, Except.ok.injEq] at h
    obtain ⟨hst, _⟩ := h
    rw [← hst]
    exact ⟨hf, ha⟩
  · simp only [mergeSec, hpf, hns] at h
    by_cases hc : (cfg.hasSection nsec = true ∧ final = 1 ∧ (added nsec).isNone = true)
    · rw [if_pos hc] at h
      simp at h
    · rw [if_neg hc] at h
      rcases han : added nsec with _ | pv
      · -- not inherited before: no replace happens
        simp only [han] at h
        rcases hhs : cfg.hasSection nsec with _ | _
        · -- copy branch
          have hkne : k ≠ nsec := by
            intro he
            rw [he] at hf
            rw [hasSection_of_findSection hf] at hhs
            cases hhs
          simp only [hhs, Bool.false_eq_true, if_false, Prod.mk.injEq,
            Except.ok.injEq] at h
          obtain ⟨hst, _⟩ := h
          rw [← hst]
          have h3 : ((cfg.addSection nsec).copyInto nsec
              (pcfg.items sec.name)).findSection k = some s := by
            rw [findSection_copyInto_ne hkne]
            exact findSection_addSection hf
          exact ⟨find_preserved_og hkne h3 _ _ _ _,
            by simp [beq_false_of_ne hkne, ha]⟩
        · -- key already present: state unchanged
          simp only [hhs, if_true, Prod.mk.injEq, Except.ok.injEq] at h
          obtain ⟨hst, _⟩ := h
          rw [← hst]
          exact ⟨hf, ha⟩
      · -- inherited before with priority pv
        have hkne : k ≠ nsec := by
          intro he
          rw [he] at ha
          rw [ha] at han
          cases han
        simp only [han] at h
        by_cases hlt : (pv < (rewriteSection b sec.name).nprio)
        · rw [if_pos hlt] at h
          have hf2 : (cfg.removeSection nsec).findSection k = some s := by
            rw [findSection_removeSection_ne hkne]
            exact hf
          rcases hhs : (cfg.removeSection nsec).hasSection nsec with _ | _
          · simp only [hhs, Bool.false_eq_true, if_false, Prod.mk.injEq,
              Except.ok.injEq] at h
            obtain ⟨hst, _⟩ := h
            rw [← hst]
            have h3 : (((cfg.removeSection nsec).addSection nsec).copyInto nsec
                (pcfg.items sec.name)).findSection k = some s := by
              rw [findSection_copyInto_ne hkne]
              exact findSection_addSection hf2
            exact ⟨find_preserved_og hkne h3 _ _ _ _,
              by simp [beq_false_of_ne hkne, ha]⟩
          · simp only [hhs, if_true, Prod.mk.injEq, Except.ok.injEq] at h
            obtain ⟨hst, _⟩ := h
            rw [← hst]
            exact ⟨hf2, by simp [beq_false_of_ne hkne, ha]⟩
        · rw [if_neg hlt] at h
          rcases hhs : cfg.hasSection nsec with _ | _
          · simp only [hhs, Bool.false_eq_true, if_false, Prod.mk.injEq,
              Except.ok.injEq] at h
            obtain ⟨hst, _⟩ := h
            rw [← hst]
            have h3 : ((cfg.addSection nsec).copyInto nsec
                (pcfg.items sec.name)).findSection k = some s := by
              rw [findSection_copyInto_ne hkne]
              exact findSection_addSection hf
            exact ⟨find_preserved_og hkne h3 _ _ _ _,
              by simp [beq_false_of_ne hkne, ha]⟩
          · simp only [hhs, if_true, Prod.mk.injEq, Except.ok.injEq] at h
            obtain ⟨hst, _⟩ := h
            rw [← hst]
            exact ⟨hf, ha⟩

theorem mergeLoop_local_preserved :
    ∀ (secs : List CSection) (b p : String) (pg : String → String) (pcfg : Config)
      (cfg : Config) (added : String → Option Int) (k : String) (s : CSection),
      cfg.findSection k = some s → added k = none →
      ∀ cfg', (mergeLoop b p pg pcfg secs cfg added).1 = .ok cfg' →
        cfg'.findSection k = some s := by
  intro secs
  induction secs with
  | nil =>
    intro b p pg pcfg cfg added k s hf _ cfg' h
    simp only [mergeLoop, Except.ok.injEq] at h
    rw [← h]
    exact hf
  | cons sec rest ih =>
    intro b p pg pcfg cfg added k s hf ha cfg' h
    rcases hms : mergeSec b p pg pcfg cfg added sec with ⟨res, ws⟩
    rcases res with e | st
    · rw [mergeLoop, hms] at h
      simp at h
    · rw [mergeLoop, hms] at h
      obtain ⟨hf2, ha2⟩ := mergeSec_ok_preserved hf ha st ws hms
      exact ih b p pg pcfg st.1 st.2 k s hf2 ha2 cfg' h

theorem setOpt_single (n k v : String) (o : List (String × String)) :
    Config.setOpt ⟨[⟨n, o⟩]⟩ n k v = ⟨[⟨n, setAssoc o k v⟩]⟩ := by
  simp [Config.setOpt, setOptList]

theorem copyInto_single (n : String) :
    ∀ (opts acc : List (String × String)),
      Config.copyInto ⟨[⟨n, acc⟩]⟩ n opts =
        ⟨[⟨n, opts.foldl (fun l q => setAssoc l q.1 q.2) acc⟩]⟩ := by
  intro opts
  induction opts with
  | nil => intro acc; rfl
  | cons q qs ih =>
    intro acc
    show Config.copyInto (Config.setOpt ⟨[⟨n, acc⟩]⟩ n q.1 q.2) n qs = _
    rw [setOpt_single, ih]
    rfl

theorem copyInto_fresh (n : String) (opts : List (String × String)) :
    Config.copyInto ⟨[⟨n, []⟩]⟩ n opts = ⟨[⟨n, copyOpts opts⟩]⟩ :=
  copyInto_single n opts []

/-- Claim C7: (i) among rewritten parent patterns targeting the same child
key, the exact-name-matched pattern (priority 1) beats the one-level
wildcard pattern (priority 0) in either processing order; (ii) two
equal-priority candidates produce a logged conflict, the first-seen
candidate is retained and the merge returns without error; (iii) in any
successful merge without a global FINAL wipe, a key defined locally in the
child keeps its local section — it is never replaced by an inherited one. -/
theorem c7_priority_merge :
    (∀ (o0 o1 : List (String × String)) (pg : String → String),
      o0.lookup "FINAL" = none → o1.lookup "FINAL" = none →
      (mergeParent "child" "/p" pg ⟨[⟨"/child/foo", o1⟩, ⟨"/*/foo", o0⟩]⟩ ⟨[]⟩).1
          = .ok ⟨[⟨"/foo", copyOpts o1⟩]⟩ ∧
      (mergeParent "child" "/p" pg ⟨[⟨"/*/foo", o0⟩, ⟨"/child/foo", o1⟩]⟩ ⟨[]⟩).1
          = .ok ⟨[⟨"/foo", copyOpts o1⟩]⟩) ∧
    (∀ (oa ob : List (String × String)) (pg : String → String),
      oa.lookup "FINAL" = none → ob.lookup "FINAL" = none →
      mergeParent "child" "/p" pg ⟨[⟨"/*O/foo", oa⟩, ⟨"/*G/foo", ob⟩]⟩ ⟨[]⟩
          = (.ok ⟨[⟨"/foo", setAssoc (copyOpts oa) "OWNER" "child"⟩]⟩,
             ["Section conflict /foo vs /*G/foo in /p"])) ∧
    (∀ (basename path : String) (pg : String → String) (pcfg cfg : Config)
      (k : String) (s : CSection) (gf : Int) (cfg' : Config),
      globalFinal pcfg path = .ok gf → gf ≠ 1 →
      cfg.findSection k = some s →
      (mergeParent basename path pg pcfg cfg).1 = .ok cfg' →
      cfg'.findSection k = some s) := by
  refine ⟨?_, ?_, ?_⟩
  · intro o0 o1 pg h0 h1
    have hA0 := lookup_none_any h0
    have hA1 := lookup_none_any h1
    have hrw1 : rewriteSection "child" "/child/foo" = ⟨some "/foo", 1, -1, -1⟩ := by
      decide
    have hrw0 : rewriteSection "child" "/*/foo" = ⟨some "/foo", 0, -1, -1⟩ := by
      decide
    constructor
    · have hgf : globalFinal ⟨[⟨"/child/foo", o1⟩, ⟨"/*/foo", o0⟩]⟩ "/p" = .ok (-1) := by
        simp [globalFinal, Config.hasSection]
      have hp1 : parseFinal ⟨[⟨"/child/foo", o1⟩, ⟨"/*/foo", o0⟩]⟩ "/child/foo" "/p"
          = .ok (-1) := by
        simp [parseFinal, Config.hasOption, Config.findSection, List.find?, hA1]
      have hp0 : parseFinal ⟨[⟨"/child/foo", o1⟩, ⟨"/*/foo", o0⟩]⟩ "/*/foo" "/p"
          = .ok (-1) := by
        simp [parseFinal, Config.hasOption, Config.findSection, List.find?, hA0]
      simp [mergeParent, hgf, mergeLoop, mergeSec, hp1, hp0, hrw1, hrw0,
        Config.hasSection, Config.items, Config.findSection, List.find?,
        Config.addSection, Config.removeSection, copyInto_fresh]
    · have hgf : globalFinal ⟨[⟨"/*/foo", o0⟩, ⟨"/child/foo", o1⟩]⟩ "/p" = .ok (-1) := by
        simp [globalFinal, Config.hasSection]
      have hp1 : parseFinal ⟨[⟨"/*/foo", o0⟩, ⟨"/child/foo", o1⟩]⟩ "/child/foo" "/p"
          = .ok (-1) := by
        simp [parseFinal, Config.hasOption, Config.findSection, List.find?, hA1]
      have hp0 : parseFinal ⟨[⟨"/*/foo", o0⟩, ⟨"/child/foo", o1⟩]⟩ "/*/foo" "/p"
          = .ok (-1) := by
        simp [parseFinal, Config.hasOption, Config.findSection, List.find?, hA0]
      simp [mergeParent, hgf, mergeLoop, mergeSec, hp1, hp0, hrw1, hrw0,
        Config.hasSection, Config.items, Config.findSection, List.find?,
        Config.addSection, Config.removeSection, copyInto_fresh]
  · intro oa ob pg ha hb
    have hAa := lookup_none_any ha
    have hAb := lookup_none_any hb
    have hrwa : rewriteSection "child" "/*O/foo" = ⟨some "/foo", 0, 1, -1⟩ := by
      decide
    have hrwb : rewriteSection "child" "/*G/foo" = ⟨some "/foo", 0, -1, 1⟩ := by
      decide
    have hgf : globalFinal ⟨[⟨"/*O/foo", oa⟩, ⟨"/*G/foo", ob⟩]⟩ "/p" = .ok (-1) := by
      simp [globalFinal, Config.hasSection]
    have hpa : parseFinal ⟨[⟨"/*O/foo", oa⟩, ⟨"/*G/foo", ob⟩]⟩ "/*O/foo" "/p"
        = .ok (-1) := by
      simp [parseFinal, Config.hasOption, Config.findSection, List.find?, hAa]
    have hpb : parseFinal ⟨[⟨"/*O/foo", oa⟩, ⟨"/*G/foo", ob⟩]⟩ "/*G/foo" "/p"
        = .ok (-1) := by
      simp [parseFinal, Config.hasOption, Config.findSection, List.find?, hAb]
    simp [mergeParent, hgf, mergeLoop, mergeSec, hpa, hpb, hrwa, hrwb,
      Config.hasSection, Config.items, Config.findSection, List.find?,
      Config.addSection, Config.removeSection, copyInto_fresh, setOpt_single]
  · intro b p pg pcfg cfg k s gf cfg' hgf hne hf h
    simp only [mergeParent, hgf] at h
    rw [if_neg hne] at h
    exact mergeLoop_local_preserved pcfg.sections b p pg pcfg cfg
      (fun _ => none) k s hf rfl cfg' h

theorem c7_priority_merge_witness :
    (([("ACL", "zero")] : List (String × String)).lookup "FINAL" = none ∧
      ([("ACL", "one")] : List (String × String)).lookup "FINAL" = none) ∧
    (mergeParent "child" "/p" (fun _ => "pgrp")
        ⟨[⟨"/child/foo", [("ACL", "one")]⟩, ⟨"/*/foo", [("ACL", "zero")]⟩]⟩ ⟨[]⟩).1
      = .ok ⟨[⟨"/foo", copyOpts [("ACL", "one")]⟩]⟩ :=
  ⟨⟨by decide, by decide⟩,
   (c7_priority_merge.1 [("ACL", "zero")] [("ACL", "one")] (fun _ => "pgrp")
     (by decide) (by decide)).1⟩

end Aclman
